import Mathlib

/-!
Verification of the asm-interpreter repository (src/src/lib.rs): a shallow
embedding of the line parser (`impl From<String> for Instruction`,
`Program::parse`) and the virtual machine (`Interpreter::run`,
`Interpreter::constant_or_register`), together with theorems settling the
specification claims.

Modelling conventions:
- Rust `i64` registers are modelled as `Int`; integer-literal parsing
  (`str::parse::<i64>`) keeps the 64-bit range check.
- Rust panics (index out of bounds in the parser; `unwrap` on missing labels
  or an empty stack; division by zero) are modelled as `Option`/`fault`.
- `HashMap` is modelled as an association list looked up with `lookupKV`;
  insertions shadow earlier entries, matching last-insert-wins lookup.
- The run loop is given step-indexed (fuel) semantics.
-/

namespace Asm

/-! ### Characters and basic string operations -/

/-- The single-quote character used by `msg` literals (code point 39). -/
def quoteChar : Char := Char.ofNat 39

/-- The one-character string holding `quoteChar`. -/
def quoteStr : String := String.mk [quoteChar]

/-- Split a character list at every character satisfying `p`, keeping empty
pieces; mirrors Rust `str::split` on a predicate. -/
def splitPred (p : Char → Bool) : List Char → List (List Char)
  | [] => [[]]
  | x :: xs =>
    match splitPred p xs with
    | [] => [[]]
    | r :: rs => if p x then [] :: r :: rs else (x :: r) :: rs

/-- Split on a single character, keeping empty pieces; mirrors Rust
`str::split(c)`. -/
def splitOnChar (c : Char) (l : List Char) : List (List Char) :=
  splitPred (fun x => x == c) l

/-- Remove leading and trailing whitespace; mirrors Rust `str::trim`. -/
def trimChars (l : List Char) : List Char :=
  ((l.dropWhile Char.isWhitespace).reverse.dropWhile Char.isWhitespace).reverse

/-- `trim` on strings. -/
def trimStr (s : String) : String := String.mk (trimChars s.toList)

/-- Whitespace-separated tokens, empties dropped; mirrors Rust
`str::split_whitespace`. -/
def splitWhitespace (s : String) : List String :=
  ((splitPred Char.isWhitespace s.toList).filter (fun l => !l.isEmpty)).map String.mk

/-- One pass of Rust `str::replace(needle, "")`: scan left to right, deleting
every non-overlapping occurrence of `needle`.  The `Nat` argument is fuel,
always instantiated with the haystack length, which bounds the recursion. -/
def replaceAllAux (needle : List Char) : Nat → List Char → List Char
  | _, [] => []
  | 0, l => l
  | fuel + 1, x :: xs =>
    if List.isPrefixOf needle (x :: xs) then
      replaceAllAux needle fuel (List.drop (needle.length - 1) xs)
    else
      x :: replaceAllAux needle fuel xs

/-- Rust `s.replace(needle, "")`: every occurrence of `needle` is removed. -/
def replaceAll (s needle : String) : String :=
  if needle.toList = [] then s
  else String.mk (replaceAllAux needle.toList s.toList.length s.toList)

/-- Remove all leading and trailing copies of `c`; mirrors Rust
`str::trim_matches(c)`. -/
def trimMatchesChar (c : Char) (s : String) : String :=
  String.mk (((s.toList.dropWhile (fun x => x == c)).reverse.dropWhile
    (fun x => x == c)).reverse)

/-! ### Signed 64-bit integer parsing (Rust `str::parse::<i64>`) -/

/-- Decimal value of a digit list (caller checks digits). -/
def digitsToNat (l : List Char) : Nat :=
  l.foldl (fun a c => a * 10 + (c.toNat - 48)) 0

/-- A nonempty all-digit list parses to its decimal value. -/
def natOfDigits (l : List Char) : Option Nat :=
  if l.isEmpty then none
  else if l.all Char.isDigit then some (digitsToNat l) else none

/-- Largest `i64` value. -/
def i64Max : Nat := 2 ^ 63 - 1

/-- Absolute value of the smallest `i64` value. -/
def i64MinAbs : Nat := 2 ^ 63

/-- Rust `str::parse::<i64>`: optional sign, at least one digit, all digits,
result within the 64-bit range. -/
def parseI64 (s : String) : Option Int :=
  match s.toList with
  | [] => none
  | c :: rest =>
    if c = '+' then
      match natOfDigits rest with
      | some n => if n ≤ i64Max then some (Int.ofNat n) else none
      | none => none
    else if c = '-' then
      match natOfDigits rest with
      | some n => if n ≤ i64MinAbs then some (-(Int.ofNat n)) else none
      | none => none
    else
      match natOfDigits (c :: rest) with
      | some n => if n ≤ i64Max then some (Int.ofNat n) else none
      | none => none

/-! ### Instructions and parsing -/

/-- The instruction set (`enum Instruction` in lib.rs). -/
inductive Instruction where
  | mov (dst src : String)
  | inc (dst : String)
  | dec (dst : String)
  | add (dst src : String)
  | sub (dst src : String)
  | mul (dst src : String)
  | div (dst src : String)
  | function (name : String)
  | call (label : String)
  | cmp (dst src : String)
  | jmp (label : String)
  | jne (label : String)
  | je (label : String)
  | jge (label : String)
  | jg (label : String)
  | jle (label : String)
  | jl (label : String)
  | msg (args : List String)
  | ret
  | end_
  | nop
deriving DecidableEq, Repr

/-- Operand tokens of a raw line, given its first whitespace token `arg0`:
`raw.replace(arg0, "")` (all occurrences removed), trimmed, split on commas,
each piece trimmed (lib.rs lines 74-81). -/
def paramsOf (raw arg0 : String) : List String :=
  (splitOnChar ',' (trimStr (replaceAll raw arg0)).toList).map
    (fun l => trimStr (String.mk l))

/-- `impl From<String> for Instruction` (lib.rs lines 67-110).  Returns `none`
where the Rust code panics: indexing `params[i]` out of bounds, or `args[0]`
on an all-whitespace line. -/
def instrFromString (raw : String) : Option Instruction :=
  if raw = "" then some Instruction.nop
  else
    match splitWhitespace raw with
    | [] => none
    | arg0 :: _ =>
      let params := paramsOf raw arg0
      if arg0 = "mov" then do
        let a ← params.get? 0
        let b ← params.get? 1
        some (Instruction.mov a b)
      else if arg0 = "inc" then do
        let a ← params.get? 0
        some (Instruction.inc a)
      else if arg0 = "dec" then do
        let a ← params.get? 0
        some (Instruction.dec a)
      else if arg0 = "add" then do
        let a ← params.get? 0
        let b ← params.get? 1
        some (Instruction.add a b)
      else if arg0 = "sub" then do
        let a ← params.get? 0
        let b ← params.get? 1
        some (Instruction.sub a b)
      else if arg0 = "mul" then do
        let a ← params.get? 0
        let b ← params.get? 1
        some (Instruction.mul a b)
      else if arg0 = "div" then do
        let a ← params.get? 0
        let b ← params.get? 1
        some (Instruction.div a b)
      else if arg0 = "call" then do
        let a ← params.get? 0
        some (Instruction.call a)
      else if arg0 = "cmp" then do
        let a ← params.get? 0
        let b ← params.get? 1
        some (Instruction.cmp a b)
      else if arg0 = "jmp" then do
        let a ← params.get? 0
        some (Instruction.jmp a)
      else if arg0 = "jne" then do
        let a ← params.get? 0
        some (Instruction.jne a)
      else if arg0 = "je" then do
        let a ← params.get? 0
        some (Instruction.je a)
      else if arg0 = "jge" then do
        let a ← params.get? 0
        some (Instruction.jge a)
      else if arg0 = "jg" then do
        let a ← params.get? 0
        some (Instruction.jg a)
      else if arg0 = "jle" then do
        let a ← params.get? 0
        some (Instruction.jle a)
      else if arg0 = "jl" then do
        let a ← params.get? 0
        some (Instruction.jl a)
      else if arg0 = "msg" then
        some (Instruction.msg params)
      else if arg0 = "ret" then
        some Instruction.ret
      else if arg0 = "end" then
        some Instruction.end_
      else if arg0.endsWith ":" then
        some (Instruction.function (trimMatchesChar ':' arg0))
      else
        some Instruction.nop

/-- Comment stripping and trimming of one source line (lib.rs lines 23-29):
cut at the first `;`, then trim. -/
def cleanLine (x : String) : String :=
  String.mk (trimChars (x.toList.takeWhile (fun c => !(c == ';'))))

/-- Parse one source line. -/
def parseLine (x : String) : Option Instruction :=
  instrFromString (cleanLine x)

/-- Parse a list of lines; `none` as soon as one line panics. -/
def parseLines : List String → Option (List Instruction)
  | [] => some []
  | l :: rest =>
    match parseLine l, parseLines rest with
    | some i, some is => some (i :: is)
    | _, _ => none

/-- Drop one trailing carriage return, as Rust `str::lines` does for CRLF. -/
def dropTrailingCR (l : List Char) : List Char :=
  match l.getLast? with
  | some c => if c = Char.ofNat 13 then l.dropLast else l
  | none => l

/-- Rust `str::lines`: split on newline, the final line terminator optional. -/
def rustLines (s : String) : List String :=
  let parts := splitOnChar (Char.ofNat 10) s.toList
  let parts :=
    match parts.reverse with
    | [] :: r => r.reverse
    | _ => parts
  parts.map (fun l => String.mk (dropTrailingCR l))

/-! ### Label table (`Program::parse`, lib.rs lines 33-39) -/

/-- Association-list lookup modelling `HashMap::get`. -/
def lookupKV {β : Type} (k : String) : List (String × β) → Option β
  | [] => none
  | (k', v) :: rest => if k = k' then some v else lookupKV k rest

/-- The table entry contributed by the instruction at index `i`: a
label-definition instruction maps its name to `i + 1`, anything else
contributes nothing. -/
def labelEntry (i : Nat) : Instruction → List (String × Nat)
  | Instruction.function name => [(name, i + 1)]
  | _ => []

/-- The label table built by the enumeration loop of `Program::parse`.
Later definitions are placed in front, so `lookupKV` returns the last
definition, matching `HashMap::insert` overwrite. -/
def buildLabelsFrom : Nat → List Instruction → List (String × Nat)
  | _, [] => []
  | i, ins :: rest => buildLabelsFrom (i + 1) rest ++ labelEntry i ins

/-- A parsed program: instruction sequence plus label table. -/
structure Program where
  instructions : List Instruction
  functions : List (String × Nat)
deriving DecidableEq, Repr

/-- `Program::parse` over whole source text; `none` when parsing panics. -/
def parseProgram (src : String) : Option Program :=
  match parseLines (rustLines src) with
  | none => none
  | some ins => some ⟨ins, buildLabelsFrom 0 ins⟩

/-! ### Execution state and the virtual machine -/

/-- Mutable interpreter state (`struct Interpreter`, minus the program). -/
structure State where
  stack : List Nat
  register : List (String × Int)
  rip : Nat
  zf : Nat
  cf : Nat
  out : String
deriving DecidableEq, Repr

/-- The fresh state built by `Interpreter::new`. -/
def initState : State := ⟨[], [], 0, 0, 0, ""⟩

/-- Register read with default 0 (`register.get(src).unwrap_or(&0)`). -/
def getReg (regs : List (String × Int)) (k : String) : Int :=
  (lookupKV k regs).getD 0

/-- Register write; the new binding shadows any previous one
(`register.entry(dst).or_insert(0)` followed by assignment). -/
def setReg (regs : List (String × Int)) (k : String) (v : Int) :
    List (String × Int) :=
  (k, v) :: regs

/-- `Interpreter::constant_or_register` (lib.rs lines 337-342): integer
literal if the token parses as `i64`, else register read with default 0. -/
def constOrReg (s : State) (src : String) : Int :=
  match parseI64 src with
  | some r => r
  | none => getReg s.register src

/-- The `msg` concatenation fold (lib.rs lines 299-316): a single boolean
`opened` toggled by the bare quote token, which contributes a comma when
opening and a space when closing; tokens containing a quote are
quote-trimmed and copied; everything else renders as its integer value. -/
def msgConcat (s : State) : Bool → List String → String
  | _, [] => ""
  | opened, tok :: rest =>
    if tok = quoteStr then
      (if opened then " " else ",") ++ msgConcat s (!opened) rest
    else if tok.toList.contains quoteChar then
      trimMatchesChar quoteChar tok ++ msgConcat s opened rest
    else
      toString (constOrReg s tok) ++ msgConcat s opened rest

/-- Result of one iteration of the `run` loop. -/
inductive StepResult where
  | next (s : State)
  | halt (out : Option String)
  | fault
deriving DecidableEq, Repr

/-- Fetch the instruction under the pointer
(`self.program.instructions.get(self.rip)`). -/
def fetch (p : Program) (s : State) : Option Instruction :=
  p.instructions.get? s.rip

/-- Jump helper: `self.program.functions.get(label).unwrap()`; a missing
label is the `unwrap` panic, modelled as `fault`. -/
def jumpTo (p : Program) (s : State) (label : String) : StepResult :=
  match lookupKV label p.functions with
  | none => StepResult.fault
  | some t => StepResult.next { s with rip := t }

/-- One iteration of the `Interpreter::run` loop (lib.rs lines 182-335).
`halt none` is the `?` early return on fetch failure; `halt (some o)` is the
`end` return; `fault` is any panic (missing label, empty stack on `ret`,
division by zero, or i64 division overflow: dividend -2^63 with divisor -1,
which Rust's checked `/` rejects in every build mode). -/
def step (p : Program) (s : State) : StepResult :=
  match fetch p s with
  | none => StepResult.halt none
  | some ins =>
    match ins with
    | Instruction.mov dst src =>
      StepResult.next { s with
        register := setReg s.register dst (constOrReg s src),
        rip := s.rip + 1 }
    | Instruction.inc dst =>
      StepResult.next { s with
        register := setReg s.register dst (getReg s.register dst + 1),
        rip := s.rip + 1 }
    | Instruction.dec dst =>
      StepResult.next { s with
        register := setReg s.register dst (getReg s.register dst - 1),
        rip := s.rip + 1 }
    | Instruction.add dst src =>
      StepResult.next { s with
        register := setReg s.register dst
          (getReg s.register dst + constOrReg s src),
        rip := s.rip + 1 }
    | Instruction.sub dst src =>
      StepResult.next { s with
        register := setReg s.register dst
          (getReg s.register dst - constOrReg s src),
        rip := s.rip + 1 }
    | Instruction.mul dst src =>
      StepResult.next { s with
        register := setReg s.register dst
          (getReg s.register dst * constOrReg s src),
        rip := s.rip + 1 }
    | Instruction.div dst src =>
      let sv := constOrReg s src
      let dv := getReg s.register dst
      if sv = 0 ∨ (dv = -(2 ^ 63) ∧ sv = -1) then StepResult.fault
      else
        StepResult.next { s with
          register := setReg s.register dst (Int.tdiv dv sv),
          rip := s.rip + 1 }
    | Instruction.call label =>
      match lookupKV label p.functions with
      | none => StepResult.fault
      | some t =>
        StepResult.next { s with stack := (s.rip + 1) :: s.stack, rip := t }
    | Instruction.cmp dst src =>
      let d := constOrReg s dst
      let r := constOrReg s src
      StepResult.next { s with
        zf := if d = r then 1 else 0,
        cf := if d = r then 0 else if d < r then 1 else 0,
        rip := s.rip + 1 }
    | Instruction.jmp label => jumpTo p s label
    | Instruction.jne label =>
      if s.zf ≠ 1 then jumpTo p s label
      else StepResult.next { s with rip := s.rip + 1 }
    | Instruction.je label =>
      if s.zf = 1 then jumpTo p s label
      else StepResult.next { s with rip := s.rip + 1 }
    | Instruction.jge label =>
      if s.zf = 1 ∨ s.cf = 0 then jumpTo p s label
      else StepResult.next { s with rip := s.rip + 1 }
    | Instruction.jg label =>
      if s.zf = 0 ∧ s.cf = 0 then jumpTo p s label
      else StepResult.next { s with rip := s.rip + 1 }
    | Instruction.jle label =>
      if s.cf = 1 ∨ s.zf = 1 then jumpTo p s label
      else StepResult.next { s with rip := s.rip + 1 }
    | Instruction.jl label =>
      if s.cf = 1 then jumpTo p s label
      else StepResult.next { s with rip := s.rip + 1 }
    | Instruction.msg args =>
      StepResult.next { s with out := msgConcat s false args, rip := s.rip + 1 }
    | Instruction.ret =>
      match s.stack with
      | [] => StepResult.fault
      | r :: rest => StepResult.next { s with rip := r, stack := rest }
    | Instruction.end_ => StepResult.halt (some s.out)
    | Instruction.function _ => StepResult.next { s with rip := s.rip + 1 }
    | Instruction.nop => StepResult.next { s with rip := s.rip + 1 }

/-- Final result of a completed run. -/
inductive Outcome where
  | output (s : String)
  | noOutput
  | fault
deriving DecidableEq, Repr

/-- Fuel-indexed unfolding of the `run` loop; `none` means the fuel ran out
before the loop finished. -/
def run (p : Program) : Nat → State → Option Outcome
  | 0, _ => none
  | fuel + 1, s =>
    match step p s with
    | StepResult.next s' => run p fuel s'
    | StepResult.halt (some o) => some (Outcome.output o)
    | StepResult.halt none => some Outcome.noOutput
    | StepResult.fault => some Outcome.fault

/-- States reachable by zero or more `next` steps. -/
inductive Reaches (p : Program) : State → State → Prop
  | refl (s : State) : Reaches p s s
  | head (s s' s'' : State) :
      step p s = StepResult.next s' → Reaches p s' s'' → Reaches p s s''

/-! ### Example programs and states used to instantiate the theorems -/

/-- One `cmp` instruction comparing the literals 1 and 2. -/
def pCmpEx : Program := ⟨[Instruction.cmp "1" "2"], []⟩

/-- The state after executing the `cmp` of `pCmpEx` from `initState`. -/
def sCmpEx : State := ⟨[], [], 1, 0, 1, ""⟩

/-- A `jmp` to a label defined at index 2 (so resolving to 3). -/
def pJmpEx : Program :=
  ⟨[Instruction.jmp "x", Instruction.nop, Instruction.function "x"], [("x", 3)]⟩

/-- One `div a, 3` instruction. -/
def pDivEx : Program := ⟨[Instruction.div "a" "3"], []⟩

/-- One `div a, 0` instruction. -/
def pDivZeroEx : Program := ⟨[Instruction.div "a" "0"], []⟩

/-- A state whose register `a` holds 10. -/
def sDivEx : State := ⟨[], [("a", 10)], 0, 0, 0, ""⟩

/-- `call f` / `end` / `f:` / `ret`, with the label table of its parse. -/
def pCallEx : Program :=
  ⟨[Instruction.call "f", Instruction.end_, Instruction.function "f",
    Instruction.ret], [("f", 3)]⟩

/-- The state of `pCallEx` after the `call`: return address 1 pushed,
pointer at the `ret`. -/
def sCallMid : State := ⟨[1], [], 3, 0, 0, ""⟩

/-- `mov 5, 7`: a numeric destination register name. -/
def pMovNumEx : Program := ⟨[Instruction.mov "5" "7"], []⟩

/-- The state after running `pMovNumEx`: register "5" stores 7. -/
def sMovNum : State := ⟨[], [("5", 7)], 1, 0, 0, ""⟩

/-! ### C3: compare -/

/-- C3: executing `compare` resets and then sets the flags so that on equal
resolved operands the post-state is exactly zero-flag 1 and carry-flag 0,
on strictly-less exactly zero-flag 0 and carry-flag 1, and on
strictly-greater both exactly 0 — so the zero-flag alone is 1 iff equal,
the carry-flag alone is 1 iff less, both are 0 iff greater — and the
pointer advances by 1 with all other state unchanged. -/
theorem cmp_sets_flags (p : Program) (s : State) (dst src : String)
    (s' : State) (h : fetch p s = some (Instruction.cmp dst src))
    (hs' : step p s = StepResult.next s') :
    (constOrReg s dst = constOrReg s src → s'.zf = 1 ∧ s'.cf = 0) ∧
    (constOrReg s dst < constOrReg s src → s'.zf = 0 ∧ s'.cf = 1) ∧
    (constOrReg s src < constOrReg s dst → s'.zf = 0 ∧ s'.cf = 0) ∧
    (s'.zf = 1 ↔ constOrReg s dst = constOrReg s src) ∧
    (s'.cf = 1 ↔ constOrReg s dst < constOrReg s src) ∧
    ¬(s'.zf = 1 ∧ s'.cf = 1) ∧
    ((s'.zf = 0 ∧ s'.cf = 0) ↔ constOrReg s src < constOrReg s dst) ∧
    s'.rip = s.rip + 1 ∧ s'.register = s.register ∧
    s'.stack = s.stack ∧ s'.out = s.out := by
  have hstep : step p s = StepResult.next { s with
      zf := if constOrReg s dst = constOrReg s src then 1 else 0,
      cf := if constOrReg s dst = constOrReg s src then 0
            else if constOrReg s dst < constOrReg s src then 1 else 0,
      rip := s.rip + 1 } := by
    simp only [step, h]
  rw [hstep] at hs'
  obtain rfl := (StepResult.next.injEq _ _).mp hs'
  rcases lt_trichotomy (constOrReg s dst) (constOrReg s src) with h1 | h1 | h1 <;>
    simp_all [ne_of_lt, ne_of_gt, le_of_lt, not_lt_of_lt]

/-- C3 witness: `cmp 1, 2` from the initial state sets the carry-flag
alone. -/
theorem cmp_sets_flags_witness :
    (constOrReg initState "1" = constOrReg initState "2" →
      sCmpEx.zf = 1 ∧ sCmpEx.cf = 0) ∧
    (constOrReg initState "1" < constOrReg initState "2" →
      sCmpEx.zf = 0 ∧ sCmpEx.cf = 1) ∧
    (constOrReg initState "2" < constOrReg initState "1" →
      sCmpEx.zf = 0 ∧ sCmpEx.cf = 0) ∧
    (sCmpEx.zf = 1 ↔ constOrReg initState "1" = constOrReg initState "2") ∧
    (sCmpEx.cf = 1 ↔ constOrReg initState "1" < constOrReg initState "2") ∧
    ¬(sCmpEx.zf = 1 ∧ sCmpEx.cf = 1) ∧
    ((sCmpEx.zf = 0 ∧ sCmpEx.cf = 0) ↔
      constOrReg initState "2" < constOrReg initState "1") ∧
    sCmpEx.rip = initState.rip + 1 ∧ sCmpEx.register = initState.register ∧
    sCmpEx.stack = initState.stack ∧ sCmpEx.out = initState.out :=
  cmp_sets_flags pCmpEx initState "1" "2" sCmpEx rfl (by decide)

/-! ### C4: the jump family -/

/-- C4: each jump goes to the label's resolved index exactly when its flag
condition holds and otherwise advances by 1: `jmp` always, `jne` when the
zero-flag is 0, `je` when it is 1, `jge` when zero-flag = 1 or
carry-flag = 0, `jg` when both are 0, `jle` when carry-flag = 1 or
zero-flag = 1, `jl` when carry-flag = 1. -/
theorem jump_family_spec (p : Program) (s : State) (lbl : String) (t : Nat)
    (hlbl : lookupKV lbl p.functions = some t)
    (hzf : s.zf = 0 ∨ s.zf = 1) (hcf : s.cf = 0 ∨ s.cf = 1) :
    (fetch p s = some (Instruction.jmp lbl) →
      step p s = StepResult.next { s with rip := t }) ∧
    (fetch p s = some (Instruction.jne lbl) →
      step p s = StepResult.next
        { s with rip := if s.zf = 0 then t else s.rip + 1 }) ∧
    (fetch p s = some (Instruction.je lbl) →
      step p s = StepResult.next
        { s with rip := if s.zf = 1 then t else s.rip + 1 }) ∧
    (fetch p s = some (Instruction.jge lbl) →
      step p s = StepResult.next
        { s with rip := if s.zf = 1 ∨ s.cf = 0 then t else s.rip + 1 }) ∧
    (fetch p s = some (Instruction.jg lbl) →
      step p s = StepResult.next
        { s with rip := if s.zf = 0 ∧ s.cf = 0 then t else s.rip + 1 }) ∧
    (fetch p s = some (Instruction.jle lbl) →
      step p s = StepResult.next
        { s with rip := if s.cf = 1 ∨ s.zf = 1 then t else s.rip + 1 }) ∧
    (fetch p s = some (Instruction.jl lbl) →
      step p s = StepResult.next
        { s with rip := if s.cf = 1 then t else s.rip + 1 }) := by
  refine ⟨?_, ?_, ?_, ?_, ?_, ?_, ?_⟩ <;> intro hf <;>
    rcases hzf with h0 | h0 <;> rcases hcf with c0 | c0 <;>
      simp [step, hf, jumpTo, hlbl, h0, c0]

/-- C4 witness: an unconditional `jmp` to a defined label from the initial
state moves the pointer to the resolved index 3. -/
theorem jump_family_witness :
    step pJmpEx initState = StepResult.next { initState with rip := 3 } :=
  (jump_family_spec pJmpEx initState "x" 3 rfl (Or.inl rfl) (Or.inl rfl)).1 rfl

/-! ### C6: division -/

/-- The overflow state: register `a` holds the smallest i64 value, with the
pointer on the `div` of `pDivMinEx`. -/
def sDivMinEx : State := ⟨[], [("a", -(2 ^ 63))], 1, 0, 0, ""⟩

/-- `mov a, -9223372036854775808` then `div a, -1`: the i64 division
overflow case, reached from the initial state by the `mov`. -/
def pDivMinEx : Program :=
  ⟨[Instruction.mov "a" "-9223372036854775808", Instruction.div "a" "-1"],
   []⟩

/-- C6 counterexample: with `a` = -2^63 (put there by the `mov` from the
initial state), `div a, -1` has a nonzero resolved source yet the run
faults instead of storing a quotient — Rust's checked i64 division panics
on overflow, so "stores the quotient for every nonzero source" fails. -/
theorem div_overflow_counterexample :
    constOrReg sDivMinEx "-1" = -1 ∧
    step pDivMinEx sDivMinEx = StepResult.fault ∧
    run pDivMinEx 3 initState = some Outcome.fault :=
  ⟨by decide, by decide, by decide⟩

/-- C6 (amended): `div` stores into the destination the quotient (truncated
toward zero, so 10/3 = 3 and -10/3 = -3) of its current value (default 0
via `getReg`) by the resolved source; a zero source — and likewise the i64
overflow case, current value -2^63 with source resolving to -1 — is a
fatal fault, distinct from the clean no-output halt. -/
theorem div_spec (p : Program) (s : State) (dst src : String)
    (h : fetch p s = some (Instruction.div dst src)) :
    (constOrReg s src = 0 →
      step p s = StepResult.fault ∧
      step p s ≠ StepResult.halt none) ∧
    (getReg s.register dst = -(2 ^ 63) → constOrReg s src = -1 →
      step p s = StepResult.fault) ∧
    (constOrReg s src ≠ 0 →
      ¬(getReg s.register dst = -(2 ^ 63) ∧ constOrReg s src = -1) →
      step p s = StepResult.next { s with
        register := setReg s.register dst
          (Int.tdiv (getReg s.register dst) (constOrReg s src)),
        rip := s.rip + 1 }) ∧
    Int.tdiv 10 3 = 3 ∧ Int.tdiv (-10) 3 = -3 ∧ getReg [] dst = 0 := by
  refine ⟨?_, ?_, ?_, by decide, by decide, rfl⟩
  · intro hz
    have hs : step p s = StepResult.fault := by simp [step, h, hz]
    exact ⟨hs, by rw [hs]; exact fun hc => StepResult.noConfusion hc⟩
  · intro hd hv
    simp [step, h, hd, hv]
  · intro hz hov
    simp only [step, h]
    split
    · rename_i hc
      rcases hc with hc | hc
      · exact absurd hc hz
      · exact absurd hc hov
    · rfl

/-- C6 witness: with register `a` holding 10, `div a, 3` stores 3;
`div a, 0` faults; and with `a` = -2^63, `div a, -1` faults. -/
theorem div_spec_witness :
    step pDivEx sDivEx = StepResult.next { sDivEx with
      register := setReg sDivEx.register "a"
        (Int.tdiv (getReg sDivEx.register "a") (constOrReg sDivEx "3")),
      rip := sDivEx.rip + 1 } ∧
    step pDivZeroEx sDivEx = StepResult.fault ∧
    step pDivMinEx sDivMinEx = StepResult.fault :=
  ⟨(div_spec pDivEx sDivEx "a" "3" rfl).2.2.1 (by decide) (by decide),
   ((div_spec pDivZeroEx sDivEx "a" "0" rfl).1 (by decide)).1,
   (div_spec pDivMinEx sDivMinEx "a" "-1" rfl).2.1 (by decide) (by decide)⟩

/-! ### C8: call and return -/

/-- C8: `call` pushes the index after itself onto the call stack and jumps
to the label's resolved target; any later `ret` executed with the call stack
back to exactly that pushed shape pops it into the pointer, transferring
control to the instruction immediately after the `call`. -/
theorem call_ret_spec (p : Program) (s : State) (lbl : String) (t : Nat)
    (hfetch : fetch p s = some (Instruction.call lbl))
    (hlbl : lookupKV lbl p.functions = some t) :
    step p s = StepResult.next
      { s with stack := (s.rip + 1) :: s.stack, rip := t } ∧
    (∀ s' : State, fetch p s' = some Instruction.ret →
      s'.stack = (s.rip + 1) :: s.stack →
      step p s' = StepResult.next
        { s' with rip := s.rip + 1, stack := s.stack }) := by
  constructor
  · simp [step, hfetch, hlbl]
  · intro s' hf hstack
    simp [step, hf, hstack]

/-- C8 witness: in `call f / end / f: / ret`, the `call` at index 0 pushes 1
and jumps to 3, and the `ret` there returns control to index 1. -/
theorem call_ret_spec_witness :
    step pCallEx initState = StepResult.next sCallMid ∧
    step pCallEx sCallMid = StepResult.next { sCallMid with rip := 1, stack := [] } :=
  ⟨(call_ret_spec pCallEx initState "f" 3 rfl rfl).1,
   (call_ret_spec pCallEx initState "f" 3 rfl rfl).2 sCallMid rfl rfl⟩

/-! ### C10: numeric register names are written but never read back -/

/-- C10: when a destination operand's text parses as a signed 64-bit
integer, a `mov` stores the value under that numeric name in the register
map, but operand resolution always returns the literal integer for that
name, in every state, so the stored value can never be read back. -/
theorem numeric_dst_shadowed (s : State) (dst : String) (v : Int)
    (hparse : parseI64 dst = some v) :
    (∀ s' : State, constOrReg s' dst = v) ∧
    (∀ (p : Program) (src : String),
      fetch p s = some (Instruction.mov dst src) →
      step p s = StepResult.next { s with
        register := setReg s.register dst (constOrReg s src),
        rip := s.rip + 1 } ∧
      lookupKV dst (setReg s.register dst (constOrReg s src)) =
        some (constOrReg s src) ∧
      constOrReg { s with
        register := setReg s.register dst (constOrReg s src),
        rip := s.rip + 1 } dst = v) := by
  constructor
  · intro s'; simp [constOrReg, hparse]
  · intro p src hf
    refine ⟨by simp [step, hf], ?_, ?_⟩
    · simp [setReg, lookupKV]
    · simp [constOrReg, hparse]

/-- C10 witness: after `mov 5, 7` the register named "5" stores 7, yet
resolving "5" still yields the literal 5, which differs from 7. -/
theorem numeric_dst_shadowed_witness :
    constOrReg sMovNum "5" = 5 ∧
    step pMovNumEx initState = StepResult.next sMovNum ∧
    lookupKV "5" sMovNum.register = some 7 ∧
    ((7 : Int) = 5 → False) := by
  have h := numeric_dst_shadowed initState "5" 5 (by decide)
  have h2 := h.2 pMovNumEx "7" rfl
  refine ⟨h.1 sMovNum, ?_, ?_, by decide⟩
  · exact h2.1
  · exact h2.2.1

/-! ### C7: the label table records the last definition, mapped to index+1 -/

/-- Lookup distributes over append: a hit in the front part wins. -/
theorem lookupKV_append_some {β : Type} (k : String) (v : β)
    (l₁ l₂ : List (String × β)) (h : lookupKV k l₁ = some v) :
    lookupKV k (l₁ ++ l₂) = some v := by
  induction l₁ with
  | nil => simp [lookupKV] at h
  | cons kv rest ih =>
    obtain ⟨k', v'⟩ := kv
    by_cases hk : k = k'
    · simp [lookupKV, hk] at h ⊢; exact h
    · simp only [lookupKV, if_neg hk] at h
      simpa [lookupKV, hk] using ih h

/-- Lookup distributes over append: a miss in the front part defers. -/
theorem lookupKV_append_none {β : Type} (k : String)
    (l₁ l₂ : List (String × β)) (h : lookupKV k l₁ = none) :
    lookupKV k (l₁ ++ l₂) = lookupKV k l₂ := by
  induction l₁ with
  | nil => rfl
  | cons kv rest ih =>
    obtain ⟨k', v'⟩ := kv
    by_cases hk : k = k'
    · simp [lookupKV, hk] at h
    · simp only [lookupKV, if_neg hk] at h
      simpa [lookupKV, hk] using ih h

/-- An instruction that is not the definition of `name` contributes no
entry for `name`. -/
theorem lookup_labelEntry_ne (name : String) (k : Nat) (ins : Instruction)
    (h : ins ≠ Instruction.function name) :
    lookupKV name (labelEntry k ins) = none := by
  cases ins
  case function n =>
    have hne : ¬ name = n := fun he => h (by rw [he])
    simp [labelEntry, lookupKV, hne]
  all_goals rfl

/-- A name defined by no instruction is absent from the label table. -/
theorem buildLabels_not_defined (name : String) :
    ∀ (instrs : List Instruction) (k : Nat),
      (∀ j, instrs.get? j ≠ some (Instruction.function name)) →
      lookupKV name (buildLabelsFrom k instrs) = none := by
  intro instrs
  induction instrs with
  | nil => intro k _; rfl
  | cons ins rest ih =>
    intro k h
    have hrest : ∀ j, rest.get? j ≠ some (Instruction.function name) :=
      fun j => h (j + 1)
    have hfront : lookupKV name (buildLabelsFrom (k + 1) rest) = none :=
      ih (k + 1) hrest
    have hins : ins ≠ Instruction.function name := by
      intro he; exact h 0 (by simp [he])
    rw [buildLabelsFrom, lookupKV_append_none name _ _ hfront]
    exact lookup_labelEntry_ne name k ins hins

/-- Generalized over the starting index: the lookup of a label defined last
at position `i` yields `k + i + 1`. -/
theorem buildLabels_lookup_gen (name : String) :
    ∀ (instrs : List Instruction) (i k : Nat),
      instrs.get? i = some (Instruction.function name) →
      (∀ j, i < j → instrs.get? j ≠ some (Instruction.function name)) →
      lookupKV name (buildLabelsFrom k instrs) = some (k + i + 1) := by
  intro instrs
  induction instrs with
  | nil => intro i k hdef _; simp at hdef
  | cons ins rest ih =>
    intro i k hdef hlast
    cases i with
    | zero =>
      have hins : ins = Instruction.function name := by simpa using hdef
      have hrest : ∀ j, rest.get? j ≠ some (Instruction.function name) :=
        fun j => hlast (j + 1) (Nat.succ_pos j)
      have hfront : lookupKV name (buildLabelsFrom (k + 1) rest) = none :=
        buildLabels_not_defined name rest (k + 1) hrest
      subst hins
      rw [buildLabelsFrom, lookupKV_append_none name _ _ hfront]
      simp [labelEntry, lookupKV]
    | succ i' =>
      have hdef' : rest.get? i' = some (Instruction.function name) := hdef
      have hlast' : ∀ j, i' < j →
          rest.get? j ≠ some (Instruction.function name) :=
        fun j hj => hlast (j + 1) (by omega)
      have := ih i' (k + 1) hdef' hlast'
      rw [buildLabelsFrom, lookupKV_append_some name _ _ _ this]
      congr 1
      omega

/-- C7: after parsing, the label table maps every defined label name to the
index one past its definition, and when a name is defined several times the
recorded index is that of the last (highest-index) definition. -/
theorem labels_map_last (instrs : List Instruction) (name : String) (i : Nat)
    (hdef : instrs.get? i = some (Instruction.function name))
    (hlast : ∀ j, i < j → instrs.get? j ≠ some (Instruction.function name)) :
    lookupKV name (buildLabelsFrom 0 instrs) = some (i + 1) := by
  have := buildLabels_lookup_gen name instrs i 0 hdef hlast
  simpa using this

/-- A label defined twice, at indices 0 and 2. -/
def instrsDup : List Instruction :=
  [Instruction.function "a", Instruction.nop, Instruction.function "a"]

/-- C7 witness: with "a" defined at indices 0 and 2, the table records 3,
one past the last definition. -/
theorem labels_map_last_witness :
    lookupKV "a" (buildLabelsFrom 0 instrsDup) = some 3 := by
  refine labels_map_last instrsDup "a" 2 (by decide) ?_
  intro j hj
  have h3 : instrsDup.get? j = none := by
    apply List.get?_eq_none.mpr
    have hl : instrsDup.length = 3 := rfl
    omega
  intro hc
  rw [h3] at hc
  exact Option.noConfusion hc

/-! ### C5: message formatting -/

/-- The msg fold ignores the current output buffer: it reads only the
registers of the state. -/
theorem msgConcat_out (s : State) (o₁ : String) :
    ∀ (args : List String) (opened : Bool),
      msgConcat { s with out := o₁ } opened args = msgConcat s opened args := by
  intro args
  induction args with
  | nil => intro opened; rfl
  | cons tok rest ih =>
    intro opened
    have hc : constOrReg { s with out := o₁ } tok = constOrReg s tok := rfl
    simp only [msgConcat, hc, ih]

/-- One `msg x` instruction. -/
def pMsgEx : Program := ⟨[Instruction.msg ["x"]], []⟩

/-- C5: executing `msg` replaces the output buffer with the left-to-right
fold of its tokens under a single boolean toggle — the bare quote token
flips the toggle and contributes a comma when opening and one space when
closing, a token containing a quote is quote-trimmed and copied literally,
and any other token resolves as register-or-constant rendered in decimal —
and the pointer advances by 1. -/
theorem msg_spec (p : Program) (s : State) (args : List String)
    (h : fetch p s = some (Instruction.msg args)) :
    step p s = StepResult.next
      { s with out := msgConcat s false args, rip := s.rip + 1 } ∧
    (∀ o₁ : String,
      msgConcat { s with out := o₁ } false args = msgConcat s false args) ∧
    (∀ (opened : Bool) (rest : List String),
      msgConcat s opened (quoteStr :: rest) =
        (if opened then " " else ",") ++ msgConcat s (!opened) rest) ∧
    (∀ (opened : Bool) (tok : String) (rest : List String),
      tok ≠ quoteStr → tok.toList.contains quoteChar = true →
      msgConcat s opened (tok :: rest) =
        trimMatchesChar quoteChar tok ++ msgConcat s opened rest) ∧
    (∀ (opened : Bool) (tok : String) (rest : List String),
      tok ≠ quoteStr → tok.toList.contains quoteChar = false →
      msgConcat s opened (tok :: rest) =
        toString (constOrReg s tok) ++ msgConcat s opened rest) := by
  refine ⟨by simp [step, h], fun o₁ => msgConcat_out s o₁ args false,
    ?_, ?_, ?_⟩
  · intro opened rest
    simp [msgConcat]
  · intro opened tok rest h1 h2
    simp only [msgConcat, if_neg h1, if_pos h2]
  · intro opened tok rest h1 h2
    have h2' : ¬ (tok.toList.contains quoteChar = true) := fun hc => by
      rw [h2] at hc
      exact Bool.noConfusion hc
    simp only [msgConcat, if_neg h1, if_neg h2']

/-- C5 witness: `msg x` from the initial state writes "0" (the unset
register `x` rendered in decimal) into the output buffer. -/
theorem msg_spec_witness :
    step pMsgEx initState = StepResult.next
      { initState with
        out := msgConcat initState false ["x"],
        rip := initState.rip + 1 } :=
  (msg_spec pMsgEx initState ["x"] rfl).1

/-! ### C2: run returns output exactly via `end`, absence exactly via
running past the instruction sequence -/

/-- A step that halts with a present string can only come from executing
`end`, and the string is the output buffer at that moment. -/
theorem step_halt_some (p : Program) (s : State) (o : String)
    (h : step p s = StepResult.halt (some o)) :
    fetch p s = some Instruction.end_ ∧ o = s.out := by
  cases hf : fetch p s with
  | none =>
    have h0 : step p s = StepResult.halt none := by simp [step, hf]
    rw [h0] at h
    simp at h
  | some ins =>
    cases ins <;> simp only [step, hf, jumpTo] at h <;> repeat' split at h
    all_goals try exact StepResult.noConfusion h
    all_goals injection h with h1
    all_goals injection h1 with h2
    all_goals exact ⟨rfl, h2.symm⟩

/-- A step halts with no string exactly when the fetch fails. -/
theorem step_halt_none_iff (p : Program) (s : State) :
    step p s = StepResult.halt none ↔ fetch p s = none := by
  constructor
  · intro h
    cases hf : fetch p s with
    | none => rfl
    | some ins =>
      exfalso
      cases ins <;> simp only [step, hf, jumpTo] at h <;> repeat' split at h
      all_goals try exact StepResult.noConfusion h
      all_goals injection h with h1
      all_goals exact Option.noConfusion h1
  · intro h
    simp [step, h]

/-- Fetching `end` halts with the current output buffer. -/
theorem step_end (p : Program) (s : State)
    (h : fetch p s = some Instruction.end_) :
    step p s = StepResult.halt (some s.out) := by
  simp [step, h]

/-- C2: a run returns a present output string only by reaching a state that
executes `end`, the value being that state's output buffer; it returns the
absent (no-output) value only by reaching a state whose pointer is past the
end of the instruction sequence; conversely, whenever a reachable state
fetches `end`, some fuel makes the run return that state's buffer, and
whenever a reachable state's fetch fails (pointer past the end), some fuel
makes the run return the absent value — normal termination, not a fault. -/
theorem run_returns_iff (p : Program) :
    (∀ (fuel : Nat) (s : State) (o : String),
      run p fuel s = some (Outcome.output o) →
      ∃ s', Reaches p s s' ∧ fetch p s' = some Instruction.end_ ∧
        o = s'.out) ∧
    (∀ (fuel : Nat) (s : State),
      run p fuel s = some Outcome.noOutput →
      ∃ s', Reaches p s s' ∧ fetch p s' = none ∧
        p.instructions.length ≤ s'.rip) ∧
    (∀ s s' : State, Reaches p s s' → fetch p s' = some Instruction.end_ →
      ∃ fuel, run p fuel s = some (Outcome.output s'.out)) ∧
    (∀ s s' : State, Reaches p s s' → fetch p s' = none →
      ∃ fuel, run p fuel s = some Outcome.noOutput) := by
  refine ⟨?_, ?_, ?_, ?_⟩
  · intro fuel
    induction fuel with
    | zero => intro s o h; simp [run] at h
    | succ n ih =>
      intro s o h
      cases hstep : step p s with
      | next s' =>
        simp only [run, hstep] at h
        obtain ⟨s'', hr, hf, ho⟩ := ih s' o h
        exact ⟨s'', Reaches.head s s' s'' hstep hr, hf, ho⟩
      | halt oo =>
        cases oo with
        | some o₂ =>
          simp only [run, hstep, Option.some.injEq] at h
          obtain ⟨hf, ho⟩ := step_halt_some p s o₂ hstep
          refine ⟨s, Reaches.refl s, hf, ?_⟩
          rw [← ho]
          exact (Outcome.output.injEq _ _).mp h.symm
        | none => simp [run, hstep] at h
      | fault => simp [run, hstep] at h
  · intro fuel
    induction fuel with
    | zero => intro s h; simp [run] at h
    | succ n ih =>
      intro s h
      cases hstep : step p s with
      | next s' =>
        simp only [run, hstep] at h
        obtain ⟨s'', hr, hf, hlen⟩ := ih s' h
        exact ⟨s'', Reaches.head s s' s'' hstep hr, hf, hlen⟩
      | halt oo =>
        cases oo with
        | some o₂ => simp [run, hstep] at h
        | none =>
          have hf : fetch p s = none := (step_halt_none_iff p s).mp hstep
          refine ⟨s, Reaches.refl s, hf, ?_⟩
          exact List.get?_eq_none.mp hf
      | fault => simp [run, hstep] at h
  · intro s s' hr
    induction hr with
    | refl s₁ =>
      intro hf
      exact ⟨1, by simp [run, step_end p s₁ hf]⟩
    | head s₁ s₂ s₃ hstep _ ih =>
      intro hf
      obtain ⟨fuel, hrun⟩ := ih hf
      exact ⟨fuel + 1, by simp [run, hstep, hrun]⟩
  · intro s s' hr
    induction hr with
    | refl s₁ =>
      intro hf
      exact ⟨1, by simp [run, (step_halt_none_iff p s₁).mpr hf]⟩
    | head s₁ s₂ s₃ hstep _ ih =>
      intro hf
      obtain ⟨fuel, hrun⟩ := ih hf
      exact ⟨fuel + 1, by simp [run, hstep, hrun]⟩

/-- A program consisting of a single `end`. -/
def pEndEx : Program := ⟨[Instruction.end_], []⟩

/-- A program with no `end`: one `nop`, then the sequence is exhausted. -/
def pNopEx : Program := ⟨[Instruction.nop], []⟩

/-- C2 witness: the single-`end` program returns a present (empty) output
through a reachable `end`; the single-`nop` program returns the absent
value through a reachable state past the end of the sequence; and from the
reachable past-the-end state of the `nop` program, some fuel indeed
produces the absent (non-fault) outcome. -/
theorem run_returns_iff_witness :
    (∃ s', Reaches pEndEx initState s' ∧
      fetch pEndEx s' = some Instruction.end_ ∧ "" = s'.out) ∧
    (∃ s', Reaches pNopEx initState s' ∧ fetch pNopEx s' = none ∧
      pNopEx.instructions.length ≤ s'.rip) ∧
    (∃ fuel, run pNopEx fuel initState = some Outcome.noOutput) :=
  ⟨(run_returns_iff pEndEx).1 1 initState "" (by decide),
   (run_returns_iff pNopEx).2.1 2 initState (by decide),
   (run_returns_iff pNopEx).2.2.2 initState { initState with rip := 1 }
     (Reaches.head initState { initState with rip := 1 }
       { initState with rip := 1 } (by decide) (Reaches.refl _))
     (by decide)⟩

/-! ### C1: operand tokenization removes every occurrence of the opcode -/

/-- C1 counterexample: on `mov removed, 5` the parser deletes the opcode
string everywhere, so the operand is `reed`, not the intact `removed` that
single-removal would give. -/
theorem operands_once_counterexample :
    instrFromString "mov removed, 5" = some (Instruction.mov "reed" "5") ∧
    Instruction.mov "reed" "5" ≠ Instruction.mov "removed" "5" :=
  ⟨by decide, by decide⟩

/-- C1 amended: for every line whose first whitespace token is a recognized
mnemonic, the operand tokens bound (in order) to the parsed instruction are
obtained by removing EVERY occurrence of the opcode token from the line,
then splitting the remainder on commas and trimming each piece — so an
operand whose text contains the opcode as a substring is altered, not
preserved. -/
theorem operands_replace_all (line arg0 : String) (rest : List String)
    (hsplit : splitWhitespace line = arg0 :: rest) :
    (arg0 = "mov" → ∀ a b tl, paramsOf line arg0 = a :: b :: tl →
      instrFromString line = some (Instruction.mov a b)) ∧
    (arg0 = "add" → ∀ a b tl, paramsOf line arg0 = a :: b :: tl →
      instrFromString line = some (Instruction.add a b)) ∧
    (arg0 = "sub" → ∀ a b tl, paramsOf line arg0 = a :: b :: tl →
      instrFromString line = some (Instruction.sub a b)) ∧
    (arg0 = "mul" → ∀ a b tl, paramsOf line arg0 = a :: b :: tl →
      instrFromString line = some (Instruction.mul a b)) ∧
    (arg0 = "div" → ∀ a b tl, paramsOf line arg0 = a :: b :: tl →
      instrFromString line = some (Instruction.div a b)) ∧
    (arg0 = "cmp" → ∀ a b tl, paramsOf line arg0 = a :: b :: tl →
      instrFromString line = some (Instruction.cmp a b)) ∧
    (arg0 = "inc" → ∀ a tl, paramsOf line arg0 = a :: tl →
      instrFromString line = some (Instruction.inc a)) ∧
    (arg0 = "dec" → ∀ a tl, paramsOf line arg0 = a :: tl →
      instrFromString line = some (Instruction.dec a)) ∧
    (arg0 = "call" → ∀ a tl, paramsOf line arg0 = a :: tl →
      instrFromString line = some (Instruction.call a)) ∧
    (arg0 = "jmp" → ∀ a tl, paramsOf line arg0 = a :: tl →
      instrFromString line = some (Instruction.jmp a)) ∧
    (arg0 = "jne" → ∀ a tl, paramsOf line arg0 = a :: tl →
      instrFromString line = some (Instruction.jne a)) ∧
    (arg0 = "je" → ∀ a tl, paramsOf line arg0 = a :: tl →
      instrFromString line = some (Instruction.je a)) ∧
    (arg0 = "jge" → ∀ a tl, paramsOf line arg0 = a :: tl →
      instrFromString line = some (Instruction.jge a)) ∧
    (arg0 = "jg" → ∀ a tl, paramsOf line arg0 = a :: tl →
      instrFromString line = some (Instruction.jg a)) ∧
    (arg0 = "jle" → ∀ a tl, paramsOf line arg0 = a :: tl →
      instrFromString line = some (Instruction.jle a)) ∧
    (arg0 = "jl" → ∀ a tl, paramsOf line arg0 = a :: tl →
      instrFromString line = some (Instruction.jl a)) ∧
    (arg0 = "msg" →
      instrFromString line = some (Instruction.msg (paramsOf line arg0))) := by
  have hne : ¬ line = "" := by
    intro he
    rw [he] at hsplit
    have h0 : splitWhitespace "" = [] := by decide
    rw [h0] at hsplit
    exact List.noConfusion hsplit
  refine ⟨?_, ?_, ?_, ?_, ?_, ?_, ?_, ?_, ?_, ?_, ?_, ?_, ?_, ?_, ?_, ?_, ?_⟩
  case _ => intro h0 a b tl hp; subst h0; simp [instrFromString, hne, hsplit, hp]
  case _ => intro h0 a b tl hp; subst h0; simp [instrFromString, hne, hsplit, hp]
  case _ => intro h0 a b tl hp; subst h0; simp [instrFromString, hne, hsplit, hp]
  case _ => intro h0 a b tl hp; subst h0; simp [instrFromString, hne, hsplit, hp]
  case _ => intro h0 a b tl hp; subst h0; simp [instrFromString, hne, hsplit, hp]
  case _ => intro h0 a b tl hp; subst h0; simp [instrFromString, hne, hsplit, hp]
  case _ => intro h0 a tl hp; subst h0; simp [instrFromString, hne, hsplit, hp]
  case _ => intro h0 a tl hp; subst h0; simp [instrFromString, hne, hsplit, hp]
  case _ => intro h0 a tl hp; subst h0; simp [instrFromString, hne, hsplit, hp]
  case _ => intro h0 a tl hp; subst h0; simp [instrFromString, hne, hsplit, hp]
  case _ => intro h0 a tl hp; subst h0; simp [instrFromString, hne, hsplit, hp]
  case _ => intro h0 a tl hp; subst h0; simp [instrFromString, hne, hsplit, hp]
  case _ => intro h0 a tl hp; subst h0; simp [instrFromString, hne, hsplit, hp]
  case _ => intro h0 a tl hp; subst h0; simp [instrFromString, hne, hsplit, hp]
  case _ => intro h0 a tl hp; subst h0; simp [instrFromString, hne, hsplit, hp]
  case _ => intro h0 a tl hp; subst h0; simp [instrFromString, hne, hsplit, hp]
  case _ => intro h0; subst h0; simp [instrFromString, hne, hsplit]

/-- C1 amended witness: `mov removed, 5` binds the replace-all operand
tokens `reed` and `5`. -/
theorem operands_replace_all_witness :
    instrFromString "mov removed, 5" = some (Instruction.mov "reed" "5") :=
  (operands_replace_all "mov removed, 5" "mov" ["removed,", "5"]
    (by decide)).1 rfl "reed" "5" [] (by decide)

/-! ### C9: operand-arity mismatch faults at parse time -/

/-- C9 counterexample: `mov a` (a two-operand opcode with one operand
token) makes instruction construction itself fault — the whole program
parse yields nothing, so the fault happens before any execution, not at the
instruction's point of use during execution. -/
theorem arity_fault_counterexample :
    instrFromString "mov a" = none ∧
    instrFromString "mov a, 5" = some (Instruction.mov "a" "5") ∧
    parseProgram "mov a\nend" = none :=
  ⟨by decide, by decide, by decide⟩

/-- C9 amended: when a source line supplies fewer operand tokens than its
recognized two-operand opcode requires, instruction construction faults
fatally at parse time — before execution ever begins. -/
theorem arity_fault_at_parse (line arg0 : String) (rest : List String)
    (hsplit : splitWhitespace line = arg0 :: rest)
    (harg : arg0 = "mov" ∨ arg0 = "add" ∨ arg0 = "sub" ∨ arg0 = "mul" ∨
      arg0 = "div" ∨ arg0 = "cmp")
    (hlen : (paramsOf line arg0).length < 2) :
    instrFromString line = none := by
  have hne : ¬ line = "" := by
    intro he
    rw [he] at hsplit
    have h0 : splitWhitespace "" = [] := by decide
    rw [h0] at hsplit
    exact List.noConfusion hsplit
  have h1 : (paramsOf line arg0)[1]? = none :=
    List.getElem?_eq_none (by omega)
  cases hp : (paramsOf line arg0)[0]? <;>
    rcases harg with h | h | h | h | h | h <;> subst h <;>
      simp [instrFromString, hne, hsplit, hp, h1]

/-- C9 amended witness: the parse of `mov a` faults. -/
theorem arity_fault_at_parse_witness :
    instrFromString "mov a" = none :=
  arity_fault_at_parse "mov a" "mov" ["a"] (by decide) (Or.inl rfl) (by decide)

end Asm
